import Mathlib

/-!
Verification development for the js-rag-demo repository.

The streaming chat relay (assignment3_streaming_chat/server.js and its
browser client) and the RAG query orchestration (file-output-rag.js) are
embedded shallowly: strings are `List Char` (the transport text after
TextDecoder), the server handler is a function from the request message and
the model stream to the list of write actions it performs, and the client
decoder is the buffered loop that splits on the double-newline frame
boundary.  External collaborators (the LangChain model client, the vector
store similarity search, and the browser JSON built-ins) are modelled
explicitly: `JSON.stringify`/`JSON.parse` are modelled on the wire
protocol's payload grammar (flat objects with string keys and string
values, with the standard string escapes); the model client and the
similarity search are function parameters.
-/

/-- Left brace character (written via its code point). -/
def lbrace : Char := '\x7b'

/-- Right brace character (written via its code point). -/
def rbrace : Char := '\x7d'

/-- Hexadecimal digit character for a value below 16 (lower case letters). -/
def hexDigChar (n : Nat) : Char :=
  if n < 10 then Char.ofNat (48 + n) else Char.ofNat (87 + n)

/-- Numeric value of a hexadecimal digit character, if it is one. -/
def hexVal (c : Char) : Option Nat :=
  if 48 ≤ c.toNat ∧ c.toNat ≤ 57 then some (c.toNat - 48)
  else if 97 ≤ c.toNat ∧ c.toNat ≤ 102 then some (c.toNat - 87)
  else if 65 ≤ c.toNat ∧ c.toNat ≤ 70 then some (c.toNat - 55)
  else none

/-- Modelled from the external `JSON.stringify`: escaping of one character
inside a JSON string literal (quote, backslash, the named control escapes,
and `\u00XX` for the remaining control characters). -/
def eChar (c : Char) : List Char :=
  if c = '\"' then ['\\', '\"']
  else if c = '\\' then ['\\', '\\']
  else if c = '\x08' then ['\\', 'b']
  else if c = '\x0c' then ['\\', 'f']
  else if c = '\n' then ['\\', 'n']
  else if c = '\r' then ['\\', 'r']
  else if c = '\t' then ['\\', 't']
  else if c.toNat < 32 then
    ['\\', 'u', '0', '0', hexDigChar (c.toNat / 16), hexDigChar (c.toNat % 16)]
  else [c]

/-- Escape a whole string for inclusion in a JSON string literal. -/
def eString : List Char → List Char
  | [] => []
  | c :: r => eChar c ++ eString r

/-- Rendered JSON string literal: opening quote, escaped body, closing quote. -/
def jStr (s : List Char) : List Char := '\"' :: (eString s ++ ['\"'])

/-- Rendered single-field JSON object, as `JSON.stringify` produces for the
three wire payloads of the chat protocol. -/
def jsonOne (key v : List Char) : List Char :=
  lbrace :: (jStr key ++ ':' :: (jStr v ++ [rbrace]))

/-- Whitespace recognized between JSON tokens. -/
def isWsChar (c : Char) : Bool :=
  c = ' ' || c = '\t' || c = '\n' || c = '\r'

/-- Skip leading JSON whitespace. -/
def skipWs : List Char → List Char
  | [] => []
  | c :: r => if isWsChar c then skipWs r else c :: r

/-- Prepend a character to the string being accumulated by the string parser. -/
def consStr (c : Char) : Option (List Char × List Char) → Option (List Char × List Char)
  | none => none
  | some (s, r) => some (c :: s, r)

/-- Modelled from the external `JSON.parse`: body of a JSON string literal
after the opening quote, returning the decoded text and the rest of the
input after the closing quote.  Raw control characters are rejected, the
standard escapes and `\uXXXX` (for valid scalar values) are decoded. -/
def parseStrBody : List Char → Option (List Char × List Char)
  | [] => none
  | c :: rest =>
    if c = '\"' then some ([], rest)
    else if c = '\\' then
      match rest with
      | [] => none
      | e :: rest2 =>
        if e = '\"' then consStr '\"' (parseStrBody rest2)
        else if e = '\\' then consStr '\\' (parseStrBody rest2)
        else if e = '/' then consStr '/' (parseStrBody rest2)
        else if e = 'b' then consStr '\x08' (parseStrBody rest2)
        else if e = 'f' then consStr '\x0c' (parseStrBody rest2)
        else if e = 'n' then consStr '\n' (parseStrBody rest2)
        else if e = 'r' then consStr '\r' (parseStrBody rest2)
        else if e = 't' then consStr '\t' (parseStrBody rest2)
        else if e = 'u' then
          match rest2 with
          | h1 :: h2 :: h3 :: h4 :: rest3 =>
            match hexVal h1, hexVal h2, hexVal h3, hexVal h4 with
            | some a, some b, some c2, some d =>
              let n := ((a * 16 + b) * 16 + c2) * 16 + d
              if n.isValidChar then consStr (Char.ofNat n) (parseStrBody rest3)
              else none
            | _, _, _, _ => none
          | _ => none
        else none
    else if c.toNat < 32 then none
    else consStr c (parseStrBody rest)

/-- Parse a JSON string token (must start with a quote). -/
def parseJStr (l : List Char) : Option (List Char × List Char) :=
  match l with
  | [] => none
  | c :: rest => if c = '\"' then parseStrBody rest else none

/-- Parse one `"key" : "value"` field of a JSON object. -/
def parseField (l : List Char) : Option ((List Char × List Char) × List Char) :=
  match parseJStr (skipWs l) with
  | none => none
  | some (k, r1) =>
    match skipWs r1 with
    | ':' :: r2 =>
      match parseJStr (skipWs r2) with
      | none => none
      | some (v, r3) => some ((k, v), r3)
    | _ => none

/-- Parse the remaining fields of a JSON object after the first one,
fuelled by the input length so the recursion is structural. -/
def parseFieldsAux :
    Nat → List Char → List (List Char × List Char) →
    Option (List (List Char × List Char) × List Char)
  | 0, _, _ => none
  | Nat.succ fuel, l, acc =>
    match skipWs l with
    | [] => none
    | c :: r =>
      if c = rbrace then some (acc.reverse, r)
      else if c = ',' then
        match parseField r with
        | some (kv, r2) => parseFieldsAux fuel r2 (kv :: acc)
        | none => none
      else none

/-- Modelled from the external `JSON.parse`, restricted to the wire
protocol's payload grammar: a single flat object with string keys and
string values, with nothing but whitespace after it.  Any other input is a
parse failure (`none`), which on the client side lands in the
`catch` branch around `JSON.parse`. -/
def parseJson (l : List Char) : Option (List (List Char × List Char)) :=
  match skipWs l with
  | [] => none
  | c :: r =>
    if c = lbrace then
      match skipWs r with
      | [] => none
      | c2 :: r2 =>
        if c2 = rbrace then (if skipWs r2 = [] then some [] else none)
        else
          match parseField r with
          | none => none
          | some (kv, r3) =>
            match parseFieldsAux l.length r3 [kv] with
            | none => none
            | some (fs, r4) => if skipWs r4 = [] then some fs else none
    else none

/-- Property access `obj.key` on a parsed JSON object: with duplicate keys,
`JSON.parse` keeps the last binding. -/
def getField : List (List Char × List Char) → List Char → Option (List Char)
  | [], _ => none
  | (k, v) :: rest, key =>
    match getField rest key with
    | some v2 => some v2
    | none => if k = key then some v else none

/-- JavaScript truthiness of `req.body.message` and of the payload fields,
restricted to the modelled value space: a missing field is falsy and a
string is truthy exactly when non-empty. -/
def truthy : Option (List Char) → Bool
  | none => false
  | some s => !s.isEmpty

/-- A stream frame, as in server.js: a content fragment, the end marker, or
an error report. -/
inductive Frame
  | content (s : List Char)
  | endF
  | errF (msg : List Char)
deriving DecidableEq

/-- The `data: ` marker each SSE message starts with. -/
def dataMarker : List Char := "data: ".data

/-- JSON payload of a frame, exactly as server.js serializes it
(`JSON.stringify` of `\x7b content \x7d`, `\x7b event: 'end' \x7d`, or
`\x7b error \x7d`). -/
def framePayload : Frame → List Char
  | Frame.content s => jsonOne ("content".data) s
  | Frame.endF => jsonOne ("event".data) ("end".data)
  | Frame.errF m => jsonOne ("error".data) m

/-- The SSE message before its terminating blank line. -/
def frameChunk (f : Frame) : List Char := dataMarker ++ framePayload f

/-- Full wire bytes of one frame: `data: <JSON>` followed by the double
newline, as written by `res.write` in server.js. -/
def encodeFrame (f : Frame) : List Char := frameChunk f ++ ['\n', '\n']

/-- Outcome of the external model client's stream for one turn: the content
fragments it yields in order, and whether it raises afterwards (a raise
before any fragment is `fragments = []`, `fails = true`). -/
structure ModelStream where
  fragments : List (List Char)
  fails : Bool
deriving DecidableEq

/-- The `for await` loop body of server.js: each chunk produces a content
frame only when `chunk.content` is truthy (non-empty). -/
def contentFrames : List (List Char) → List Frame
  | [] => []
  | c :: r => (if c.isEmpty then [] else [Frame.content c]) ++ contentFrames r

/-- Error text server.js sends in its error frame. -/
def serverErrorText : List Char := "Failed to get response from AI".data

/-- All frames server.js writes for one streaming turn: the content frames,
then the end frame on clean completion of the stream, or the error frame
when the stream raises (the `catch` branch skips the end frame). -/
def streamFrames (st : ModelStream) : List Frame :=
  contentFrames st.fragments ++
    [if st.fails then Frame.errF serverErrorText else Frame.endF]

/-- One observable write action of the chat endpoint handler. -/
inductive WriteA
  | statusJson (code : Nat) (body : List Char)
  | sseHead
  | frameWrite (bytes : List Char)
deriving DecidableEq

/-- Body of the 400 response `res.status(400).json(...)` serializes. -/
def reqErrBody : List Char := jsonOne ("error".data) ("Message is required".data)

/-- The `app.post('/chat')` handler of server.js: validate
`req.body.message` (missing or empty is falsy, rejected with a 400 JSON
response before anything is streamed), otherwise write the SSE headers and
then every frame of the turn. -/
def handleChat (message : Option (List Char)) (st : ModelStream) : List WriteA :=
  if truthy message = false then
    [WriteA.statusJson 400 reqErrBody]
  else
    WriteA.sseHead :: (streamFrames st).map (fun f => WriteA.frameWrite (encodeFrame f))

/-- Frame bytes among a trace of write actions, in order. -/
def framesWritten : List WriteA → List (List Char)
  | [] => []
  | WriteA.frameWrite b :: r => b :: framesWritten r
  | WriteA.statusJson _ _ :: r => framesWritten r
  | WriteA.sseHead :: r => framesWritten r

/-- One dispatch of the client decoder in client.js. -/
inductive CEvent
  | append (s : List Char)
  | ended
  | failed (msg : List Char)
  | badJson (payload : List Char)
deriving DecidableEq

/-- The dispatch chain of client.js on a parsed payload: `data.content`
truthy appends text; otherwise `data.event === 'end'` marks completion;
otherwise `data.error` truthy marks failure; otherwise nothing happens. -/
def dispatchData (d : List (List Char × List Char)) : List CEvent :=
  if truthy (getField d ("content".data)) then
    [CEvent.append ((getField d ("content".data)).getD [])]
  else if getField d ("event".data) = some ("end".data) then
    [CEvent.ended]
  else if truthy (getField d ("error".data)) then
    [CEvent.failed ((getField d ("error".data)).getD [])]
  else []

/-- Handling of one complete SSE message chunk in client.js: only chunks
starting with `data: ` are considered; the rest of such a chunk is parsed
as JSON, a parse failure is logged and skipped (the `catch` branch), and a
parsed payload goes through the dispatch chain. -/
def processOneMessage (msg : List Char) : List CEvent :=
  if dataMarker.isPrefixOf msg then
    match parseJson (msg.drop 6) with
    | some d => dispatchData d
    | none => [CEvent.badJson (msg.drop 6)]
  else []

/-- Index-of of the first `\n\n` boundary, as `buffer.indexOf` computes it:
the message before the boundary and the buffer contents after it. -/
def findBoundary : List Char → Option (List Char × List Char)
  | [] => none
  | c :: rest =>
    if c = '\n' ∧ rest.head? = some '\n' then some ([], rest.tail)
    else
      match findBoundary rest with
      | some (m, r) => some (c :: m, r)
      | none => none

/-- The inner `while (boundary !== -1)` loop of client.js, fuelled by the
buffer length so the recursion is structural: extract and process every
complete message, returning the remaining buffer and the dispatches. -/
def drainAux : Nat → List Char → List Char × List CEvent
  | 0, buf => (buf, [])
  | Nat.succ fuel, buf =>
    match findBoundary buf with
    | none => (buf, [])
    | some (m, rest) =>
      let p := drainAux fuel rest
      (p.1, processOneMessage m ++ p.2)

/-- Drain every complete message from a buffer. -/
def drainBuffer (buf : List Char) : List Char × List CEvent :=
  drainAux buf.length buf

/-- Decoder state across reads: the retained buffer and the dispatches so
far. -/
structure DecoderState where
  buffer : List Char
  events : List CEvent
deriving DecidableEq

/-- One `reader.read()` delivery: append the chunk to the buffer and drain
all complete messages. -/
def feed (st : DecoderState) (chunk : List Char) : DecoderState :=
  let p := drainBuffer (st.buffer ++ chunk)
  { buffer := p.1, events := st.events ++ p.2 }

/-- Decoder state before the first read. -/
def initState : DecoderState := { buffer := [], events := [] }

/-- The whole client read loop over a sequence of chunk deliveries; at
`done` the loop just breaks, so whatever is still buffered is dropped. -/
def runClient (chunks : List (List Char)) : DecoderState :=
  chunks.foldl feed initState

/-- The text accumulated in `currentAiText`: exactly the dispatched content
appends, in order. -/
def appendedText : List CEvent → List Char
  | [] => []
  | CEvent.append s :: r => s ++ appendedText r
  | CEvent.ended :: r => appendedText r
  | CEvent.failed _ :: r => appendedText r
  | CEvent.badJson _ :: r => appendedText r

/-- Server-to-client relay of one turn delivered in a single read. -/
def serverToClient (st : ModelStream) : List CEvent :=
  (feed initState (((streamFrames st).map encodeFrame).flatten)).events

/-- Shape of a found boundary: the buffer is the message, the two newline
characters, then the rest. -/
theorem findBoundary_shape {l m r : List Char} (h : findBoundary l = some (m, r)) :
    l = m ++ '\n' :: '\n' :: r := by
  induction l generalizing m r with
  | nil => simp [findBoundary] at h
  | cons c rest ih =>
    rw [findBoundary] at h
    split at h
    · next hc =>
      obtain ⟨hc1, hc2⟩ := hc
      cases rest with
      | nil => simp at hc2
      | cons r0 rr =>
        simp only [List.head?_cons, Option.some.injEq] at hc2
        simp only [List.tail_cons, Option.some.injEq, Prod.mk.injEq] at h
        obtain ⟨hm, hr⟩ := h
        subst hm; subst hr; subst hc1; subst hc2
        rfl
    · next hc =>
      cases hfb : findBoundary rest with
      | none => rw [hfb] at h; exact absurd h (by simp)
      | some p =>
        obtain ⟨m0, r0⟩ := p
        rw [hfb] at h
        simp only [Option.some.injEq, Prod.mk.injEq] at h
        obtain ⟨hm, hr⟩ := h
        subst hr
        rw [← hm, ih hfb]
        rfl

/-- Searching a longer buffer finds the same first boundary. -/
theorem findBoundary_append {l m r : List Char} (t : List Char)
    (h : findBoundary l = some (m, r)) :
    findBoundary (l ++ t) = some (m, r ++ t) := by
  induction l generalizing m r with
  | nil => simp [findBoundary] at h
  | cons c rest ih =>
    rw [findBoundary] at h
    rw [List.cons_append, findBoundary]
    split at h
    · next hc =>
      obtain ⟨hc1, hc2⟩ := hc
      cases rest with
      | nil => simp at hc2
      | cons r0 rr =>
        simp only [List.head?_cons, Option.some.injEq] at hc2
        subst hc1; subst hc2
        simp only [List.tail_cons, Option.some.injEq, Prod.mk.injEq] at h
        obtain ⟨hm, hr⟩ := h
        subst hm; subst hr
        simp
    · next hc =>
      cases hfb : findBoundary rest with
      | none => rw [hfb] at h; exact absurd h (by simp)
      | some p =>
        obtain ⟨m0, r0⟩ := p
        rw [hfb] at h
        simp only [Option.some.injEq, Prod.mk.injEq] at h
        obtain ⟨hm, hr⟩ := h
        subst hm; subst hr
        have hcond : ¬(c = '\n' ∧ (rest ++ t).head? = some '\n') := by
          intro ⟨hc1, hc2⟩
          apply hc
          refine ⟨hc1, ?_⟩
          cases rest with
          | nil => simp [findBoundary] at hfb
          | cons a b => simpa using hc2
        rw [if_neg hcond, ih hfb]

/-- A message without newline characters followed by the boundary is split
off exactly. -/
theorem findBoundary_of_no_nl {m : List Char} (t : List Char)
    (h : ∀ c ∈ m, c ≠ '\n') :
    findBoundary (m ++ '\n' :: '\n' :: t) = some (m, t) := by
  induction m with
  | nil => simp [findBoundary]
  | cons c rest ih =>
    have hc : c ≠ '\n' := h c (by simp)
    rw [List.cons_append, findBoundary]
    rw [if_neg (by intro hcc; exact hc hcc.1)]
    rw [ih (fun x hx => h x (by simp [hx]))]

/-- Draining an empty buffer does nothing, whatever the fuel. -/
theorem drainAux_nil (fuel : Nat) : drainAux fuel [] = ([], []) := by
  cases fuel with
  | zero => rfl
  | succ k => simp [drainAux, findBoundary]

/-- With at least the buffer length as fuel, the drain loop does not depend
on the fuel. -/
theorem drainAux_irrel :
    ∀ (f1 f2 : Nat) (buf : List Char),
      buf.length ≤ f1 → buf.length ≤ f2 → drainAux f1 buf = drainAux f2 buf := by
  intro f1
  induction f1 with
  | zero =>
    intro f2 buf h1 _
    have : buf = [] := List.length_eq_zero.mp (Nat.le_zero.mp h1)
    subst this
    rw [drainAux_nil, drainAux_nil]
  | succ f1 ih =>
    intro f2 buf h1 h2
    cases f2 with
    | zero =>
      have : buf = [] := List.length_eq_zero.mp (Nat.le_zero.mp h2)
      subst this
      rw [drainAux_nil, drainAux_nil]
    | succ f2 =>
      cases hfb : findBoundary buf with
      | none => simp [drainAux, hfb]
      | some p =>
        obtain ⟨m, rest⟩ := p
        have hshape := findBoundary_shape hfb
        have hlt : rest.length + 2 ≤ buf.length := by
          subst hshape
          simp only [List.length_append, List.length_cons]
          omega
        simp only [drainAux, hfb]
        rw [ih f2 rest (by omega) (by omega)]

/-- With at least the buffer length as fuel, the drain loop computes
`drainBuffer`. -/
theorem drainAux_eq {fuel : Nat} {buf : List Char} (h : buf.length ≤ fuel) :
    drainAux fuel buf = drainBuffer buf :=
  drainAux_irrel fuel buf.length buf h le_rfl

/-- Unfolding step of the drain loop when no boundary is present. -/
theorem drainBuffer_none {buf : List Char} (h : findBoundary buf = none) :
    drainBuffer buf = (buf, []) := by
  unfold drainBuffer
  cases hlen : buf.length with
  | zero => rw [drainAux]
  | succ k => rw [drainAux, h]

/-- Unfolding step of the drain loop when a boundary is found: process the
first message and drain the rest. -/
theorem drainBuffer_cons {buf m rest : List Char}
    (h : findBoundary buf = some (m, rest)) :
    drainBuffer buf
      = ((drainBuffer rest).1, processOneMessage m ++ (drainBuffer rest).2) := by
  have hshape := findBoundary_shape h
  have hlt : rest.length + 2 ≤ buf.length := by
    subst hshape
    simp only [List.length_append, List.length_cons]
    omega
  obtain ⟨k, hk⟩ : ∃ k, buf.length = k + 1 := ⟨buf.length - 1, by omega⟩
  rw [drainBuffer, hk]
  simp only [drainAux, h]
  rw [drainAux_eq (by omega)]

/-- Draining a buffer extended on the right: first drain the original
buffer, then drain its remainder together with the extension. -/
theorem drainBuffer_append :
    ∀ (n : Nat) (l t : List Char), l.length ≤ n →
      drainBuffer (l ++ t)
        = ((drainBuffer ((drainBuffer l).1 ++ t)).1,
           (drainBuffer l).2 ++ (drainBuffer ((drainBuffer l).1 ++ t)).2) := by
  intro n
  induction n with
  | zero =>
    intro l t h
    have : l = [] := List.length_eq_zero.mp (Nat.le_zero.mp h)
    subst this
    have h0 : drainBuffer ([] : List Char) = ([], []) :=
      drainBuffer_none (by rfl)
    rw [h0]
    simp
  | succ n ih =>
    intro l t h
    cases hfb : findBoundary l with
    | none =>
      rw [drainBuffer_none hfb]
      simp
    | some p =>
      obtain ⟨m, rest⟩ := p
      have hshape := findBoundary_shape hfb
      have hlt : rest.length + 2 ≤ l.length := by
        subst hshape
        simp only [List.length_append, List.length_cons]
        omega
      have hfb2 : findBoundary (l ++ t) = some (m, rest ++ t) :=
        findBoundary_append t hfb
      rw [drainBuffer_cons hfb, drainBuffer_cons hfb2, ih rest t (by omega)]
      simp

/-- The remainder left by the drain loop contains no boundary. -/
theorem drainBuffer_fst_no_boundary :
    ∀ (n : Nat) (l : List Char), l.length ≤ n →
      findBoundary (drainBuffer l).1 = none := by
  intro n
  induction n with
  | zero =>
    intro l h
    have : l = [] := List.length_eq_zero.mp (Nat.le_zero.mp h)
    subst this
    rw [drainBuffer_none (by rfl)]
    rfl
  | succ n ih =>
    intro l h
    cases hfb : findBoundary l with
    | none => rw [drainBuffer_none hfb]; exact hfb
    | some p =>
      obtain ⟨m, rest⟩ := p
      have hshape := findBoundary_shape hfb
      have hlt : rest.length + 2 ≤ l.length := by
        subst hshape
        simp only [List.length_append, List.length_cons]
        omega
      rw [drainBuffer_cons hfb]
      exact ih rest (by omega)

/-- Feeding two chunks one after the other is the same as feeding their
concatenation: the decoder's buffered splitting loses nothing at read
boundaries. -/
theorem feed_append (st : DecoderState) (a b : List Char) :
    feed (feed st a) b = feed st (a ++ b) := by
  unfold feed
  simp only []
  rw [← List.append_assoc]
  rw [drainBuffer_append (st.buffer ++ a).length (st.buffer ++ a) b le_rfl]
  simp

/-- Feeding a chunk to a state whose buffer holds no boundary and then an
empty chunk changes nothing. -/
theorem feed_nil {st : DecoderState} (h : findBoundary st.buffer = none) :
    feed st [] = st := by
  unfold feed
  simp only [List.append_nil]
  rw [drainBuffer_none h]
  simp

/-- Folding the read loop over chunk deliveries, starting from any state
whose buffer holds no boundary, equals feeding the concatenation at once. -/
theorem foldl_feed_eq :
    ∀ (chunks : List (List Char)) (st : DecoderState),
      findBoundary st.buffer = none →
      chunks.foldl feed st = feed st chunks.flatten := by
  intro chunks
  induction chunks with
  | nil =>
    intro st h
    simp only [List.foldl_nil, List.flatten_nil]
    exact (feed_nil h).symm
  | cons c rest ih =>
    intro st h
    have hafter : findBoundary (feed st c).buffer = none := by
      unfold feed
      exact drainBuffer_fst_no_boundary (st.buffer ++ c).length _ le_rfl
    rw [List.foldl_cons, ih (feed st c) hafter, feed_append, List.flatten_cons]

/-- Appending one more read to the read loop feeds it to the final state. -/
theorem runClient_snoc (chunks : List (List Char)) (t : List Char) :
    runClient (chunks ++ [t]) = feed (runClient chunks) t := by
  simp [runClient, List.foldl_append]

/-- C3: the client decoder's output is invariant under how the transport
splits the byte stream into reads: any sequence of chunk deliveries ends in
exactly the same decoder state (same dispatched frames in the same order,
same retained buffer) as delivering the whole byte string in a single
read, because bytes after a partial frame are retained in the buffer. -/
theorem decoder_chunking_invariant (chunks : List (List Char)) :
    runClient chunks = runClient [chunks.flatten] := by
  unfold runClient
  rw [foldl_feed_eq chunks initState rfl]
  simp

/-- C10: when the transport stream ends, whatever is still buffered after
the last complete frame boundary is silently discarded: a final read whose
bytes complete no boundary dispatches nothing. -/
theorem trailing_partial_discarded (chunks : List (List Char)) (t : List Char)
    (h : findBoundary ((runClient chunks).buffer ++ t) = none) :
    (runClient (chunks ++ [t])).events = (runClient chunks).events := by
  rw [runClient_snoc]
  unfold feed
  rw [drainBuffer_none h]
  simp

/-- Witness for C10: a complete content frame followed at stream end by a
fully formed end frame that lacks its final blank line; the end event is
never dispatched. -/
theorem trailing_partial_discarded_w :
    (runClient ([encodeFrame (Frame.content ("Hel".data))]
        ++ [dataMarker ++ framePayload Frame.endF])).events
      = (runClient [encodeFrame (Frame.content ("Hel".data))]).events :=
  trailing_partial_discarded [encodeFrame (Frame.content ("Hel".data))]
    (dataMarker ++ framePayload Frame.endF) (by decide)

/-- Hexadecimal digit characters are never a newline. -/
theorem hexDigChar_ne_nl : ∀ n : Nat, n < 16 → hexDigChar n ≠ '\n' := by decide

/-- The escaping of a character emits no raw newline (a newline in the text
becomes the two characters backslash-n). -/
theorem eChar_no_nl (c : Char) : '\n' ∉ eChar c := by
  unfold eChar
  split_ifs with h1 h2 h3 h4 h5 h6 h7 h8
  · decide
  · decide
  · decide
  · decide
  · decide
  · decide
  · decide
  · intro hm
    simp only [List.mem_cons, List.mem_singleton] at hm
    rcases hm with h | h | h | h | h | h
    · exact absurd h.symm (by decide)
    · exact absurd h.symm (by decide)
    · exact absurd h.symm (by decide)
    · exact absurd h.symm (by decide)
    · exact (hexDigChar_ne_nl (c.toNat / 16) (by omega) h.symm)
    · rcases h with h | h
      · exact (hexDigChar_ne_nl (c.toNat % 16) (by omega) h.symm)
      · exact absurd h (List.not_mem_nil _)
  · intro hm
    simp only [List.mem_singleton] at hm
    subst hm
    exact h8 (by decide)

/-- Escaped strings contain no raw newline. -/
theorem eString_no_nl (s : List Char) : '\n' ∉ eString s := by
  induction s with
  | nil => decide
  | cons c r ih =>
    intro hm
    rw [eString] at hm
    rcases List.mem_append.mp hm with h | h
    · exact eChar_no_nl c h
    · exact ih h

/-- A rendered JSON string literal contains no raw newline. -/
theorem jStr_no_nl (s : List Char) : '\n' ∉ jStr s := by
  intro hm
  rw [jStr] at hm
  rcases List.mem_cons.mp hm with h | h
  · exact absurd h (by decide)
  rcases List.mem_append.mp h with h1 | h1
  · exact eString_no_nl s h1
  · exact absurd h1 (by decide)

/-- A serialized payload contains no raw newline. -/
theorem jsonOne_no_nl (k v : List Char) : '\n' ∉ jsonOne k v := by
  intro hm
  rw [jsonOne] at hm
  rcases List.mem_cons.mp hm with h | h
  · exact absurd h (by decide)
  rcases List.mem_append.mp h with h1 | h1
  · exact jStr_no_nl k h1
  rcases List.mem_cons.mp h1 with h2 | h2
  · exact absurd h2 (by decide)
  rcases List.mem_append.mp h2 with h3 | h3
  · exact jStr_no_nl v h3
  · exact absurd h3 (by decide)

/-- An SSE message chunk (marker plus payload) contains no raw newline, so
its frame boundary is exactly its terminating blank line. -/
theorem frameChunk_no_nl (f : Frame) : '\n' ∉ frameChunk f := by
  simp only [frameChunk, List.mem_append]
  intro hm
  rcases hm with h | h
  · exact absurd h (by decide)
  · cases f with
    | content s => exact jsonOne_no_nl _ s h
    | endF => exact jsonOne_no_nl _ _ h
    | errF m => exact jsonOne_no_nl _ m h

/-- The boundary search splits an encoded frame off exactly. -/
theorem findBoundary_frameChunk (f : Frame) (t : List Char) :
    findBoundary (frameChunk f ++ '\n' :: '\n' :: t) = some (frameChunk f, t) :=
  findBoundary_of_no_nl t (fun _ hc hceq => frameChunk_no_nl f (hceq ▸ hc))

/-- Draining a buffer made of whole `\n\n`-terminated chunks, each of which
contains its boundary exactly at the end, processes each chunk in order and
leaves an empty buffer. -/
theorem drain_clean_chunks :
    ∀ chunks : List (List Char),
      (∀ m ∈ chunks, findBoundary (m ++ ['\n', '\n']) = some (m, [])) →
      drainBuffer ((chunks.map (fun m => m ++ ['\n', '\n'])).flatten)
        = ([], (chunks.map processOneMessage).flatten) := by
  intro chunks
  induction chunks with
  | nil =>
    intro _
    simp only [List.map_nil, List.flatten_nil]
    exact drainBuffer_none rfl
  | cons m rest ih =>
    intro h
    have hm := h m (by simp)
    have hfb : findBoundary ((m ++ ['\n', '\n'])
        ++ (rest.map (fun m => m ++ ['\n', '\n'])).flatten)
        = some (m, (rest.map (fun m => m ++ ['\n', '\n'])).flatten) := by
      have := findBoundary_append
        ((rest.map (fun m => m ++ ['\n', '\n'])).flatten) hm
      simpa using this
    simp only [List.map_cons, List.flatten_cons]
    rw [drainBuffer_cons hfb, ih (fun x hx => h x (by simp [hx]))]

/-- Events dispatched from a single read starting idle are exactly the
drain of that read. -/
theorem feed_init_events (x : List Char) :
    (feed initState x).events = (drainBuffer x).2 := by
  unfold feed initState
  simp

/-- Processing a chunk that starts with the data marker parses the rest as
JSON and either dispatches it or logs the malformed payload. -/
theorem processOneMessage_data (payload : List Char) :
    processOneMessage (dataMarker ++ payload)
      = match parseJson payload with
        | some d => dispatchData d
        | none => [CEvent.badJson payload] := by
  unfold processOneMessage
  have hpre : dataMarker.isPrefixOf (dataMarker ++ payload) = true := by
    rw [List.isPrefixOf_iff_prefix]
    exact List.prefix_append _ _
  have hdrop : (dataMarker ++ payload).drop 6 = payload := by
    have h6 : dataMarker.length = 6 := by decide
    rw [← h6, List.drop_left]
  rw [if_pos hpre, hdrop]

/-- Encoded frames are clean chunks: message followed by the blank line. -/
theorem map_encodeFrame (F : List Frame) :
    F.map encodeFrame = (F.map frameChunk).map (fun m => m ++ ['\n', '\n']) := by
  rw [List.map_map]
  rfl

/-- Events dispatched when a whole encoded frame sequence arrives in one
read: each frame chunk is processed in order. -/
theorem feed_frames_events (F : List Frame) :
    (feed initState ((F.map encodeFrame).flatten)).events
      = ((F.map frameChunk).map processOneMessage).flatten := by
  rw [feed_init_events, map_encodeFrame]
  rw [drain_clean_chunks (F.map frameChunk)]
  intro m hm
  rcases List.mem_map.mp hm with ⟨f, _, hf⟩
  subst hf
  exact findBoundary_frameChunk f []

/-- Prepending newline-free characters in front of a buffer moves its first
boundary right by that prefix. -/
theorem findBoundary_prepend_no_nl {p x m r : List Char}
    (hp : ∀ c ∈ p, c ≠ '\n') (h : findBoundary x = some (m, r)) :
    findBoundary (p ++ x) = some (p ++ m, r) := by
  induction p with
  | nil => simpa using h
  | cons c pr ih =>
    rw [List.cons_append, findBoundary]
    rw [if_neg (by intro hcc; exact hp c (by simp) hcc.1)]
    rw [ih (fun y hy => hp y (by simp [hy]))]
    rfl

/-- C6: a received frame whose payload fails to parse is logged and
skipped, and every later frame of the turn is still processed: injecting
one malformed frame between two well-formed frame sequences adds exactly
one diagnostic event and changes nothing else. -/
theorem malformed_frame_skipped (pre post : List Frame) (bad : List Char)
    (hparse : parseJson bad = none)
    (hclean : findBoundary (bad ++ ['\n', '\n']) = some (bad, [])) :
    (feed initState
        (((pre.map encodeFrame).flatten ++ (dataMarker ++ bad ++ ['\n', '\n']))
          ++ (post.map encodeFrame).flatten)).events
      = (feed initState ((pre.map encodeFrame).flatten)).events
        ++ CEvent.badJson bad
          :: (feed initState ((post.map encodeFrame).flatten)).events := by
  have hcleanAll :
      ∀ m ∈ pre.map frameChunk ++ (dataMarker ++ bad) :: post.map frameChunk,
        findBoundary (m ++ ['\n', '\n']) = some (m, []) := by
    intro m hm
    rcases List.mem_append.mp hm with h | h
    · rcases List.mem_map.mp h with ⟨f, _, hf⟩
      subst hf
      exact findBoundary_frameChunk f []
    · rcases List.mem_cons.mp h with h1 | h1
      · subst h1
        rw [List.append_assoc]
        exact findBoundary_prepend_no_nl (by decide) hclean
      · rcases List.mem_map.mp h1 with ⟨f, _, hf⟩
        subst hf
        exact findBoundary_frameChunk f []
  have hbuf :
      ((pre.map encodeFrame).flatten ++ (dataMarker ++ bad ++ ['\n', '\n']))
          ++ (post.map encodeFrame).flatten
        = ((pre.map frameChunk ++ (dataMarker ++ bad) :: post.map frameChunk).map
            (fun m => m ++ ['\n', '\n'])).flatten := by
    rw [map_encodeFrame pre, map_encodeFrame post]
    simp [List.map_append, List.flatten_append, List.append_assoc]
  rw [hbuf, feed_init_events,
    drain_clean_chunks (pre.map frameChunk ++ (dataMarker ++ bad) :: post.map frameChunk)
      hcleanAll,
    feed_frames_events pre, feed_frames_events post]
  have hmid : processOneMessage (dataMarker ++ bad) = [CEvent.badJson bad] := by
    rw [processOneMessage_data bad, hparse]
  simp [List.map_append, List.flatten_append, hmid]

/-- Witness for C6: a content frame, a frame whose payload is not JSON, and
an end frame: the decoder logs the malformed payload and still dispatches
the end event. -/
theorem malformed_frame_skipped_w :
    (feed initState
        ((([Frame.content ("Hel".data)].map encodeFrame).flatten
            ++ (dataMarker ++ "oops".data ++ ['\n', '\n']))
          ++ (([Frame.endF] : List Frame).map encodeFrame).flatten)).events
      = (feed initState (([Frame.content ("Hel".data)].map encodeFrame).flatten)).events
        ++ CEvent.badJson ("oops".data)
          :: (feed initState ((([Frame.endF] : List Frame).map encodeFrame).flatten)).events :=
  malformed_frame_skipped [Frame.content ("Hel".data)] [Frame.endF] ("oops".data)
    (by decide) (by decide)

/-- Frames that close the logical response. -/
def isTerminal : Frame → Bool
  | Frame.content _ => false
  | Frame.endF => true
  | Frame.errF _ => true

/-- Concatenated text carried by the content frames of a frame list. -/
def frameTexts : List Frame → List Char
  | [] => []
  | Frame.content s :: r => s ++ frameTexts r
  | Frame.endF :: r => frameTexts r
  | Frame.errF _ :: r => frameTexts r

/-- The frame bytes in the trace of frame writes the handler performs. -/
theorem framesWritten_frames (L : List Frame) :
    framesWritten (L.map (fun f => WriteA.frameWrite (encodeFrame f)))
      = L.map encodeFrame := by
  induction L with
  | nil => rfl
  | cons f r ih => rw [List.map_cons, List.map_cons, framesWritten, ih]

/-- The content loop never emits a terminal frame. -/
theorem contentFrames_filter_terminal (frags : List (List Char)) :
    (contentFrames frags).filter isTerminal = [] := by
  induction frags with
  | nil => rfl
  | cons c r ih =>
    rw [contentFrames, List.filter_append, ih]
    by_cases hc : c.isEmpty
    · simp [hc]
    · simp [hc, isTerminal]

/-- C9: the server writes a content frame exactly for the non-empty
fragments of the model stream (the `if (chunk.content)` guard skips empty
ones), and the concatenated text of the emitted content frames equals the
concatenated content of all fragments. -/
theorem content_frames_exact (frags : List (List Char)) :
    contentFrames frags = (frags.filter (fun c => !c.isEmpty)).map Frame.content
      ∧ frameTexts (contentFrames frags) = frags.flatten := by
  induction frags with
  | nil => exact ⟨rfl, rfl⟩
  | cons c r ih =>
    constructor
    · rw [contentFrames, List.filter_cons]
      by_cases hc : c.isEmpty
      · simp only [hc, Bool.not_true, if_neg]
        simp [ih.1]
      · simp only [hc, Bool.not_false]
        simp [ih.1]
    · rw [contentFrames]
      by_cases hc : c.isEmpty
      · have hcnil : c = [] := by simpa using hc
        subst hcnil
        simpa using ih.2
      · simp only [hc, Bool.false_eq_true, if_neg, List.nil_append]
        simp only [List.singleton_append, frameTexts, List.flatten_cons, ih.2]
        simp [ih.2]

/-- C2: a model stream yielding the fragments Hel and lo and completing
cleanly produces one content frame per fragment followed by a single end
frame, and the client decoder reconstructs exactly the text Hello and
dispatches exactly one end event. -/
theorem relay_hello_roundtrip :
    streamFrames { fragments := ["Hel".data, "lo".data], fails := false }
        = [Frame.content ("Hel".data), Frame.content ("lo".data), Frame.endF]
      ∧ serverToClient { fragments := ["Hel".data, "lo".data], fails := false }
        = [CEvent.append ("Hel".data), CEvent.append ("lo".data), CEvent.ended]
      ∧ appendedText
          (serverToClient { fragments := ["Hel".data, "lo".data], fails := false })
        = "Hello".data
      ∧ (serverToClient { fragments := ["Hel".data, "lo".data], fails := false }).count
          CEvent.ended = 1 := by
  refine ⟨by decide, by decide, by decide, by decide⟩

/-- C1: every streaming turn that passes validation writes the encoded
stream frames, among which exactly one is terminal: the end frame when the
model stream completes, the error frame when it raises, never both, always
last; and for the concrete stream that raises after the fragment Hel, the
client observes the content Hel followed by exactly one error event and no
end event. -/
theorem streaming_turn_single_terminal :
    (∀ (msg : Option (List Char)) (st : ModelStream), truthy msg = true →
      framesWritten (handleChat msg st) = (streamFrames st).map encodeFrame
      ∧ (streamFrames st).filter isTerminal
          = [if st.fails then Frame.errF serverErrorText else Frame.endF]
      ∧ (streamFrames st).getLast?
          = some (if st.fails then Frame.errF serverErrorText else Frame.endF))
    ∧ serverToClient { fragments := ["Hel".data], fails := true }
        = [CEvent.append ("Hel".data), CEvent.failed serverErrorText] := by
  constructor
  · intro msg st h
    refine ⟨?_, ?_, ?_⟩
    · rw [handleChat, if_neg (by simp [h]), framesWritten]
      exact framesWritten_frames (streamFrames st)
    · rw [streamFrames, List.filter_append, contentFrames_filter_terminal]
      cases st.fails <;> simp [isTerminal]
    · rw [streamFrames]
      exact List.getLast?_concat _
  · decide

/-- Witness for C1: a one-fragment stream that completes cleanly, behind a
non-empty request message. -/
theorem streaming_turn_single_terminal_w :
    framesWritten (handleChat (some ("hi".data)) { fragments := ["ok".data], fails := false })
        = (streamFrames { fragments := ["ok".data], fails := false }).map encodeFrame
      ∧ (streamFrames { fragments := ["ok".data], fails := false }).filter isTerminal
          = [if ({ fragments := ["ok".data], fails := false } : ModelStream).fails
              then Frame.errF serverErrorText else Frame.endF]
      ∧ (streamFrames { fragments := ["ok".data], fails := false }).getLast?
          = some (if ({ fragments := ["ok".data], fails := false } : ModelStream).fails
              then Frame.errF serverErrorText else Frame.endF) :=
  streaming_turn_single_terminal.1 (some ("hi".data))
    { fragments := ["ok".data], fails := false } (by decide)

/-- C4: a request whose message field is missing or empty is rejected with
the 400 JSON error before anything is streamed: the trace is exactly the
status write, with no SSE headers and no frame writes; conversely a
non-empty message yields the SSE headers followed by the stream frames. -/
theorem invalid_request_no_frames (msg : Option (List Char)) (st : ModelStream) :
    (truthy msg = false →
      handleChat msg st = [WriteA.statusJson 400 reqErrBody]
      ∧ (∀ b, WriteA.frameWrite b ∉ handleChat msg st)
      ∧ WriteA.sseHead ∉ handleChat msg st)
    ∧ (truthy msg = true →
      handleChat msg st
        = WriteA.sseHead
            :: (streamFrames st).map (fun f => WriteA.frameWrite (encodeFrame f))) := by
  constructor
  · intro h
    have he : handleChat msg st = [WriteA.statusJson 400 reqErrBody] := by
      rw [handleChat, if_pos h]
    refine ⟨he, ?_, ?_⟩
    · intro b hb
      rw [he] at hb
      simp at hb
    · intro hb
      rw [he] at hb
      simp at hb
  · intro h
    rw [handleChat, if_neg (by simp [h])]

/-- Witness for C4: a request with no message field gets the 400 response
and no frames; one with a non-empty message gets headers and frames. -/
theorem invalid_request_no_frames_w :
    (handleChat none { fragments := [], fails := false }
        = [WriteA.statusJson 400 reqErrBody]
      ∧ (∀ b, WriteA.frameWrite b ∉ handleChat none { fragments := [], fails := false })
      ∧ WriteA.sseHead ∉ handleChat none { fragments := [], fails := false })
    ∧ handleChat (some ("hi".data)) { fragments := [], fails := false }
        = WriteA.sseHead
            :: (streamFrames { fragments := [], fails := false }).map
              (fun f => WriteA.frameWrite (encodeFrame f)) :=
  ⟨(invalid_request_no_frames none { fragments := [], fails := false }).1 (by decide),
   (invalid_request_no_frames (some ("hi".data)) { fragments := [], fails := false }).2
     (by decide)⟩

/-- Hexadecimal digits decode back to their value. -/
theorem hexVal_hexDigChar : ∀ n : Nat, n < 16 → hexVal (hexDigChar n) = some n := by decide

/-- Skipping whitespace leaves a list headed by a non-whitespace character
unchanged. -/
theorem skipWs_cons_of {c : Char} (r : List Char) (h : isWsChar c = false) :
    skipWs (c :: r) = c :: r := by
  rw [skipWs, h]
  simp

/-- Parsing the escaped rendering of a string consumes it exactly, up to
the closing quote. -/
theorem parseStrBody_eString : ∀ (s t : List Char),
    parseStrBody (eString s ++ '\"' :: t) = some (s, t) := by
  intro s
  induction s with
  | nil =>
    intro t
    rw [eString]
    rw [parseStrBody.eq_def]
    simp
  | cons c cs ih =>
    intro t
    rw [eString, List.append_assoc]
    unfold eChar
    split_ifs with h1 h2 h3 h4 h5 h6 h7 h8
    · subst h1; rw [parseStrBody.eq_def]; simp [consStr, ih]
    · subst h2; rw [parseStrBody.eq_def]; simp [consStr, ih]
    · subst h3; rw [parseStrBody.eq_def]; simp [consStr, ih]
    · subst h4; rw [parseStrBody.eq_def]; simp [consStr, ih]
    · subst h5; rw [parseStrBody.eq_def]; simp [consStr, ih]
    · subst h6; rw [parseStrBody.eq_def]; simp [consStr, ih]
    · subst h7; rw [parseStrBody.eq_def]; simp [consStr, ih]
    · have hd1 := hexVal_hexDigChar (c.toNat / 16) (by omega)
      have hd2 := hexVal_hexDigChar (c.toNat % 16) (by omega)
      have h0 : hexVal '0' = some 0 := by decide
      have hn : c.toNat / 16 * 16 + c.toNat % 16 = c.toNat := by omega
      have hvalid : Nat.isValidChar (c.toNat) := Or.inl (by omega)
      rw [parseStrBody.eq_def]
      simp [h0, hd1, hd2, hn, hvalid, Char.ofNat_toNat, consStr, ih]
    · rw [parseStrBody.eq_def]
      simp [consStr, ih, h1, h2, h8]

/-- Parsing a rendered JSON string token returns the original string. -/
theorem parseJStr_jStr (s t : List Char) :
    parseJStr (jStr s ++ t) = some (s, t) := by
  rw [jStr, List.cons_append, parseJStr, if_pos rfl, List.append_assoc,
    List.singleton_append]
  exact parseStrBody_eString s t

/-- Skipping whitespace in front of a rendered string token is a no-op. -/
theorem skipWs_jStr (s x : List Char) : skipWs (jStr s ++ x) = jStr s ++ x := by
  rw [jStr, List.cons_append]
  exact skipWs_cons_of _ (by decide)


/-- Parsing the rendered field of a payload object returns the key, the
value and the input after the value. -/
theorem parseField_kv (k v rest : List Char) :
    parseField (jStr k ++ ':' :: (jStr v ++ rest)) = some ((k, v), rest) := by
  simp [parseField, skipWs_jStr, parseJStr_jStr, skipWs_cons_of, isWsChar]

/-- Parsing a rendered single-field payload object returns exactly that
field: the modelled `JSON.parse` inverts the modelled `JSON.stringify` on
the wire payloads. -/
theorem parseJson_one (k v : List Char) :
    parseJson (jsonOne k v) = some [(k, v)] := by
  have hfield := parseField_kv k v [rbrace]
  have hq : jStr k ++ ':' :: (jStr v ++ [rbrace])
      = '\"' :: ((eString k ++ ['\"']) ++ ':' :: (jStr v ++ [rbrace])) := by
    rw [jStr, List.cons_append]
  rw [hq] at hfield
  have hskip : skipWs ('\"' :: ((eString k ++ ['\"']) ++ ':' :: (jStr v ++ [rbrace])))
      = '\"' :: ((eString k ++ ['\"']) ++ ':' :: (jStr v ++ [rbrace])) :=
    skipWs_cons_of _ (by decide)
  rw [parseJson, jsonOne, hq]
  rw [skipWs_cons_of _ (by decide)]
  dsimp only []
  simp only [eq_self_iff_true, if_true]
  rw [hskip]
  dsimp only []
  rw [if_neg (show ¬('\"' = rbrace) by decide)]
  rw [hfield]
  dsimp only [List.length_cons]
  rw [parseFieldsAux, skipWs_cons_of _ (by decide)]
  simp [skipWs]

/-- Grammar check of one wire frame, following the spec's wire protocol: the
bytes must be `data: `, then a payload, then the blank line. -/
def stripWire (w : List Char) : Option (List Char) :=
  if w.take 6 = dataMarker ∧ 8 ≤ w.length ∧ w.drop (w.length - 2) = ['\n', '\n']
  then some ((w.drop 6).take (w.length - 8)) else none

/-- Grammar check of a parsed payload, following the spec's wire protocol:
exactly one of a content object with a string value, the end-event object,
or an error object with a string value. -/
def shapeOk (fs : List (List Char × List Char)) : Bool :=
  match fs with
  | [(k, v)] =>
    (k = "content".data) || (k = "event".data && v = "end".data) || (k = "error".data)
  | _ => false

/-- Full wire grammar check of one frame, following the spec: the `data: `
marker, a JSON payload of one of the three shapes, and the blank line. -/
def wellFormedWire (w : List Char) : Bool :=
  match stripWire w with
  | some body =>
    match parseJson body with
    | some fs => shapeOk fs
    | none => false
  | none => false

/-- Stripping the marker and blank line from a well-assembled wire frame
recovers its payload. -/
theorem stripWire_make (p : List Char) :
    stripWire ((dataMarker ++ p) ++ ['\n', '\n']) = some p := by
  have h6 : dataMarker.length = 6 := by decide
  have hlen : ((dataMarker ++ p) ++ ['\n', '\n']).length = p.length + 8 := by
    simp only [List.length_append, List.length_cons, List.length_nil, h6]
    omega
  have hc : ((dataMarker ++ p) ++ ['\n', '\n']).take 6 = dataMarker
      ∧ 8 ≤ ((dataMarker ++ p) ++ ['\n', '\n']).length
      ∧ ((dataMarker ++ p) ++ ['\n', '\n']).drop
          (((dataMarker ++ p) ++ ['\n', '\n']).length - 2) = ['\n', '\n'] := by
    refine ⟨?_, ?_, ?_⟩
    · rw [List.append_assoc, ← h6, List.take_left]
    · rw [hlen]; omega
    · rw [hlen]
      have h2 : p.length + 8 - 2 = (dataMarker ++ p).length := by
        simp only [List.length_append, h6]
        omega
      rw [h2, List.drop_left]
  rw [stripWire, if_pos hc]
  rw [hlen]
  have h1 : ((dataMarker ++ p) ++ ['\n', '\n']).drop 6 = p ++ ['\n', '\n'] := by
    rw [List.append_assoc, ← h6, List.drop_left]
  rw [h1]
  have h2 : p.length + 8 - 8 = p.length := by omega
  rw [h2, List.take_left]

/-- Every encoded frame passes the spec's wire grammar check. -/
theorem encodeFrame_wf (f : Frame) : wellFormedWire (encodeFrame f) = true := by
  have he : encodeFrame f = (dataMarker ++ framePayload f) ++ ['\n', '\n'] := by
    rw [encodeFrame, frameChunk]
  rw [wellFormedWire, he, stripWire_make]
  cases f with
  | content s =>
    rw [framePayload]
    dsimp only []
    rw [parseJson_one]
    simp [shapeOk]
  | endF =>
    rw [framePayload]
    dsimp only []
    rw [parseJson_one]
    simp [shapeOk]
  | errF m =>
    rw [framePayload]
    dsimp only []
    rw [parseJson_one]
    simp [shapeOk]

/-- C5: every frame the server writes during a streaming turn is the byte
string `data: <JSON>` plus a blank line, whose payload is exactly one of
the three protocol shapes (content object, end-event object, or error
object); no write of any other shape occurs. -/
theorem frames_wire_well_formed (msg : Option (List Char)) (st : ModelStream)
    (b : List Char) (hb : WriteA.frameWrite b ∈ handleChat msg st) :
    wellFormedWire b = true := by
  unfold handleChat at hb
  by_cases h : truthy msg = false
  · rw [if_pos h] at hb
    simp at hb
  · rw [if_neg h] at hb
    rcases List.mem_cons.mp hb with h1 | h1
    · exact absurd h1 (by simp)
    · rcases List.mem_map.mp h1 with ⟨f, _, hf⟩
      have hbe : b = encodeFrame f := by
        injection hf.symm
      subst hbe
      exact encodeFrame_wf f

/-- Witness for C5: the content frame written for a one-fragment stream
passes the wire grammar check. -/
theorem frames_wire_well_formed_w :
    wellFormedWire (encodeFrame (Frame.content ("x".data))) = true :=
  frames_wire_well_formed (some ("hi".data)) { fragments := ["x".data], fails := false }
    (encodeFrame (Frame.content ("x".data))) (by decide)

/-- The context block of processQuery in file-output-rag.js: each retrieved
document labelled `Document <i+1>:` on its own line, blocks joined by a
blank line. -/
def mkContext (docs : List (List Char)) : List Char :=
  List.intercalate ("\n\n".data)
    (docs.enum.map (fun p =>
      "Document ".data ++ (Nat.repr (p.1 + 1)).data ++ ":\n".data ++ p.2))

/-- The prompt template of processQuery in file-output-rag.js, with the
context block and the query interpolated (whitespace as in the source). -/
def mkPrompt (context query : List Char) : List Char :=
  "\n      Answer the question based on the following context:\n      \n      ".data
    ++ context
    ++ "\n      \n      Question: ".data
    ++ query
    ++ "\n      \n      When answering, make sure to cite your source as [Document X] where X is the document number.\n    ".data

/-- Observable outcome of one processQuery call: the documents returned by
the similarity search, the prompts passed to `llm.invoke`, and the answer
text logged. -/
structure PQOutcome where
  retrieved : List (List Char)
  llmCalls : List (List Char)
  answer : List Char
deriving DecidableEq

/-- The processQuery function of file-output-rag.js: run the similarity
search with k = 2, build the context block and the prompt, and invoke the
model once, unconditionally.  The similarity search and the model client
are external collaborators, passed as functions. -/
def processQuery (search : List Char → Nat → List (List Char))
    (llm : List Char → List Char) (query : List Char) : PQOutcome :=
  let relevantDocs := search query 2
  let context := mkContext relevantDocs
  let prompt := mkPrompt context query
  let response := llm prompt
  { retrieved := relevantDocs, llmCalls := [prompt], answer := response }

/-- Counterexample to C7: over an empty vector store the similarity search
returns zero documents, yet processQuery still calls the model client (one
`llm.invoke`), instead of answering with a fixed insufficient-information
response without invoking the model. -/
theorem empty_index_counterexample :
    (processQuery (fun _ _ => []) (fun _ => "canned answer".data) ("q".data)).retrieved
        = []
      ∧ (processQuery (fun _ _ => []) (fun _ => "canned answer".data) ("q".data)).llmCalls
        ≠ []
      ∧ (processQuery (fun _ _ => []) (fun _ => "canned answer".data) ("q".data)).answer
        = "canned answer".data := by
  refine ⟨rfl, ?_, rfl⟩
  intro h
  simp [processQuery] at h

/-- C7 as amended: over an empty index (zero retrieved chunks) processQuery
builds the prompt over an empty context block and invokes the model client
exactly once with it, returning whatever the model answers. -/
theorem empty_index_still_invokes (search : List Char → Nat → List (List Char))
    (llm : List Char → List Char) (q : List Char) (h : search q 2 = []) :
    processQuery search llm q
      = { retrieved := []
          llmCalls := [mkPrompt (mkContext []) q]
          answer := llm (mkPrompt (mkContext []) q) } := by
  unfold processQuery
  rw [h]

/-- Witness for the amended C7: a concrete empty search. -/
theorem empty_index_still_invokes_w :
    processQuery (fun _ _ => []) (fun _ => "canned answer".data) ("q".data)
      = { retrieved := []
          llmCalls := [mkPrompt (mkContext []) ("q".data)]
          answer := (fun _ : List Char => "canned answer".data)
            (mkPrompt (mkContext []) ("q".data)) } :=
  empty_index_still_invokes (fun _ _ => []) (fun _ => "canned answer".data)
    ("q".data) rfl

/-- One message passed to the model, as built in server.js. -/
inductive ChatMsg
  | system (s : List Char)
  | human (s : List Char)
deriving DecidableEq

/-- The messages array server.js builds for one turn: the character system
prompt and the current user message, nothing else (the handler keeps no
state between requests). -/
def messagesForTurn (sys userMessage : List Char) : List ChatMsg :=
  [ChatMsg.system sys, ChatMsg.human userMessage]

/-- A sequence of turns on one connection: each POST runs the same handler
body, so each turn's messages are built independently. -/
def connectionRun (sys : List Char) (turns : List (List Char)) : List (List ChatMsg) :=
  turns.map (messagesForTurn sys)

/-- Counterexample to C8: on turn 2 of a connection the messages sent to
the model number 2 (system prompt plus current message), not the
1 + 2(n-1) + 1 = 4 the claim's growing messageHistory would give; the
server keeps no history at all. -/
theorem no_history_counterexample :
    (connectionRun ("You are a helpful assistant.".data) [['a'], ['b']]).get? 1
        = some [ChatMsg.system ("You are a helpful assistant.".data), ChatMsg.human ['b']]
      ∧ (messagesForTurn ("You are a helpful assistant.".data) ['b']).length = 2
      ∧ ¬((messagesForTurn ("You are a helpful assistant.".data) ['b']).length
          = 1 + 2 * (2 - 1) + 1) := by
  refine ⟨rfl, rfl, by decide⟩

/-- C8 as amended: on every turn of a connection the message sequence sent
to the model is exactly the system persona plus that turn's user message
(2 entries); prior turns contribute nothing because no history is kept. -/
theorem turn_messages_no_history (sys : List Char) (turns : List (List Char))
    (i : Nat) (h : i < turns.length) :
    (connectionRun sys turns).get? i
        = some [ChatMsg.system sys, ChatMsg.human (turns.get ⟨i, h⟩)]
      ∧ (messagesForTurn sys (turns.get ⟨i, h⟩)).length = 2 := by
  constructor
  · rw [connectionRun, List.get?_map, List.get?_eq_get h]
    rfl
  · rfl

/-- Witness for the amended C8: turn 2 of a concrete two-turn connection. -/
theorem turn_messages_no_history_w :
    (connectionRun ("You are a helpful assistant.".data) [['a'], ['b']]).get? 1
        = some [ChatMsg.system ("You are a helpful assistant.".data),
            ChatMsg.human ([['a'], ['b']].get (⟨1, by decide⟩ : Fin 2))]
      ∧ (messagesForTurn ("You are a helpful assistant.".data)
          ([['a'], ['b']].get (⟨1, by decide⟩ : Fin 2))).length = 2 :=
  turn_messages_no_history ("You are a helpful assistant.".data) [['a'], ['b']] 1
    (by decide)
